import Mathlib

/-!
# cafe: the DNS reconciliation engine of `cmd/cafe/main.go`

A shallow embedding of the diff that `main` computes between the declared
records (the `.jsonnet` zone files) and the records held by Cloudflare, of
the helpers `hash`, `nt`, `getZoneName`, `Set.Add`, `Set.Has`, and of the
zone validation of the directory walk.

Go strings are Lean strings, Go `int` is `Int`, `*uint16` and `*bool` are
`Option Nat` and `Option Bool` (a nil pointer is `none`, and dereferencing it
is the failure `Failure.nilDereference`).  `crypto/md5` and `encoding/hex`
of the Go standard library are embedded as executable functions (RFC 1321),
checked below against the RFC test vectors.
-/

namespace Cafe

/-! ## Go standard library: `[]byte(s)`, `md5.Sum`, `hex.EncodeToString` -/

/-- UTF-8 encoding of one code point, the bytes of a Go string. -/
def utf8EncodeNat (c : Nat) : List Nat :=
  if c ≤ 0x7f then [c]
  else if c ≤ 0x7ff then [0xc0 ||| (c >>> 6) &&& 0x1f, 0x80 ||| c &&& 0x3f]
  else if c ≤ 0xffff then
    [0xe0 ||| (c >>> 12) &&& 0x0f, 0x80 ||| (c >>> 6) &&& 0x3f, 0x80 ||| c &&& 0x3f]
  else
    [0xf0 ||| (c >>> 18) &&& 0x07, 0x80 ||| (c >>> 12) &&& 0x3f,
      0x80 ||| (c >>> 6) &&& 0x3f, 0x80 ||| c &&& 0x3f]

/-- The conversion `[]byte(s)`. -/
def bytesOf (s : String) : List Nat :=
  s.data.flatMap fun c => utf8EncodeNat c.toNat

/-- MD5 additive constants, `floor (2^32 * |sin (i + 1)|)`. -/
def md5K : List Nat := [
  0xd76aa478, 0xe8c7b756, 0x242070db, 0xc1bdceee,
  0xf57c0faf, 0x4787c62a, 0xa8304613, 0xfd469501,
  0x698098d8, 0x8b44f7af, 0xffff5bb1, 0x895cd7be,
  0x6b901122, 0xfd987193, 0xa679438e, 0x49b40821,
  0xf61e2562, 0xc040b340, 0x265e5a51, 0xe9b6c7aa,
  0xd62f105d, 0x02441453, 0xd8a1e681, 0xe7d3fbc8,
  0x21e1cde6, 0xc33707d6, 0xf4d50d87, 0x455a14ed,
  0xa9e3e905, 0xfcefa3f8, 0x676f02d9, 0x8d2a4c8a,
  0xfffa3942, 0x8771f681, 0x6d9d6122, 0xfde5380c,
  0xa4beea44, 0x4bdecfa9, 0xf6bb4b60, 0xbebfbc70,
  0x289b7ec6, 0xeaa127fa, 0xd4ef3085, 0x04881d05,
  0xd9d4d039, 0xe6db99e5, 0x1fa27cf8, 0xc4ac5665,
  0xf4292244, 0x432aff97, 0xab9423a7, 0xfc93a039,
  0x655b59c3, 0x8f0ccc92, 0xffeff47d, 0x85845dd1,
  0x6fa87e4f, 0xfe2ce6e0, 0xa3014314, 0x4e0811a1,
  0xf7537e82, 0xbd3af235, 0x2ad7d2bb, 0xeb86d391]

/-- MD5 per-round left-rotation amounts. -/
def md5S : List Nat := [
  7, 12, 17, 22, 7, 12, 17, 22, 7, 12, 17, 22, 7, 12, 17, 22,
  5, 9, 14, 20, 5, 9, 14, 20, 5, 9, 14, 20, 5, 9, 14, 20,
  4, 11, 16, 23, 4, 11, 16, 23, 4, 11, 16, 23, 4, 11, 16, 23,
  6, 10, 15, 21, 6, 10, 15, 21, 6, 10, 15, 21, 6, 10, 15, 21]

/-- Truncation to a 32-bit word. -/
def w32 (x : Nat) : Nat := x % 4294967296

/-- Bitwise complement of a 32-bit word. -/
def not32 (x : Nat) : Nat := x ^^^ 0xffffffff

/-- Left rotation of a 32-bit word. -/
def rotl32 (x s : Nat) : Nat := w32 (x <<< s) ||| (x >>> (32 - s))

/-- The four chaining words of MD5. -/
structure Md5State where
  a : Nat
  b : Nat
  c : Nat
  d : Nat
deriving DecidableEq, Repr

/-- Initial chaining value. -/
def md5Init : Md5State := ⟨0x67452301, 0xefcdab89, 0x98badcfe, 0x10325476⟩

/-- One of the 64 operations on a block whose sixteen words are `m`. -/
def md5Round (m : List Nat) (st : Md5State) (i : Nat) : Md5State :=
  let f :=
    if i < 16 then (st.b &&& st.c) ||| (not32 st.b &&& st.d)
    else if i < 32 then (st.d &&& st.b) ||| (not32 st.d &&& st.c)
    else if i < 48 then st.b ^^^ st.c ^^^ st.d
    else st.c ^^^ (st.b ||| not32 st.d)
  let g :=
    if i < 16 then i
    else if i < 32 then (5 * i + 1) % 16
    else if i < 48 then (3 * i + 5) % 16
    else (7 * i) % 16
  let x := w32 (f + st.a + md5K.getD i 0 + m.getD g 0)
  ⟨st.d, w32 (st.b + rotl32 x (md5S.getD i 0)), st.b, st.c⟩

/-- Little-endian 32-bit words of a byte sequence. -/
def wordsLE : List Nat → List Nat
  | b0 :: b1 :: b2 :: b3 :: rest =>
    (b0 + 256 * b1 + 65536 * b2 + 16777216 * b3) :: wordsLE rest
  | _ => []

/-- Compression of one 64-byte block. -/
def md5Block (st : Md5State) (block : List Nat) : Md5State :=
  let r := (List.range 64).foldl (md5Round (wordsLE block)) st
  ⟨w32 (st.a + r.a), w32 (st.b + r.b), w32 (st.c + r.c), w32 (st.d + r.d)⟩

/-- The `n` low bytes of `x`, least significant first. -/
def bytesLE : Nat → Nat → List Nat
  | 0, _ => []
  | n + 1, x => x % 256 :: bytesLE n (x / 256)

/-- MD5 padding: a one bit, zeros up to 56 mod 64, the bit length on 64 bits. -/
def md5Pad (msg : List Nat) : List Nat :=
  msg ++ 0x80 :: List.replicate ((119 - msg.length % 64) % 64) 0
    ++ bytesLE 8 ((8 * msg.length) % 18446744073709551616)

/-- The first `n` 64-byte blocks of a byte sequence. -/
def chunks64 : Nat → List Nat → List (List Nat)
  | 0, _ => []
  | n + 1, bs => bs.take 64 :: chunks64 n (bs.drop 64)

/-- The digest `md5.Sum(msg)`, sixteen bytes. -/
def md5Sum (msg : List Nat) : List Nat :=
  let p := md5Pad msg
  let st := (chunks64 (p.length / 64) p).foldl md5Block md5Init
  bytesLE 4 st.a ++ bytesLE 4 st.b ++ bytesLE 4 st.c ++ bytesLE 4 st.d

/-- One lowercase hexadecimal digit. -/
def hexDigit (n : Nat) : Char := "0123456789abcdef".data.getD n '0'

/-- The encoding `hex.EncodeToString`. -/
def hexEncodeToString (bs : List Nat) : String :=
  String.mk (bs.flatMap fun b => [hexDigit (b / 16), hexDigit (b % 16)])

/-- The composition `hex.EncodeToString(md5.Sum([]byte(s)))` of `hash`. -/
def md5Hex (s : String) : String := hexEncodeToString (md5Sum (bytesOf s))

/-! ## Data model -/

/-- The fields of `cloudflare.DNSRecord` that `main.go` reads or writes.
`Type_` is the Go field `Type`. -/
structure DNSRecord where
  ID : String
  Type_ : String
  Name : String
  Content : String
  TTL : Int
  Priority : Option Nat
  Proxied : Option Bool
deriving DecidableEq, Repr

/-- The fields of `cloudflare.Zone` that `main.go` reads. -/
structure Zone where
  ID : String
  Name : String
deriving DecidableEq, Repr

/-- The ways a run stops without an add-set and a delete-set. -/
inductive Failure where
  /-- `log.Fatalf("ERROR: cname is duplicated: %s", record.Name)`, line 121. -/
  | cnameDuplicated (name : String)
  /-- The zone check of the walk, lines 87-90: message and `os.Exit(1)`. -/
  | unmanagedZone (zoneName : String)
  /-- Runtime panic of `*r.Priority` or `*r.Proxied` on a nil pointer. -/
  | nilDereference
deriving DecidableEq, Repr

/-! ## `Set[T]`, lines 302-319 -/

/-- The type `Set[T comparable] map[T]struct{}`: the list of its keys. -/
def Set (T : Type) : Type := List T

/-- The constructor `SetOf[T]()`: the empty set. -/
def SetOf {T : Type} : Set T := ([] : List T)

/-- The method `Set.Add`: the set afterwards and the returned flag. -/
def Set.Add {T : Type} [DecidableEq T] (s : Set T) (item : T) : Set T × Bool :=
  if List.elem item s then (s, false) else ((item :: s : List T), true)

/-- The method `Set.Has`. -/
def Set.Has {T : Type} [DecidableEq T] (s : Set T) (item : T) : Bool :=
  List.elem item s

/-! ## `getZoneName`, `nt`, `hash` -/

/-- The pieces of `strings.Split(s, ".")`, on the characters of `s`. -/
def splitDots : List Char → List (List Char)
  | [] => [[]]
  | c :: cs =>
    if c = '.' then [] :: splitDots cs
    else
      match splitDots cs with
      | [] => [[c]]
      | p :: ps => (c :: p) :: ps

/-- The call `strings.Split(s, ".")`. -/
def stringsSplit (s : String) : List String :=
  (splitDots s.data).map String.mk

/-- The call `strings.Join(parts, ".")`. -/
def stringsJoin (parts : List String) : String :=
  ".".intercalate parts

/-- The function `getZoneName`, lines 321-327. -/
def getZoneName (record : DNSRecord) : String :=
  let parts := stringsSplit record.Name
  if parts.length < 2 then record.Name
  else stringsJoin (parts.drop (parts.length - 2))

/-- The function `nt`, lines 295-300. -/
def nt (r : DNSRecord) : String :=
  if r.Type_ = "A" ∨ r.Type_ = "CNAME" ∨ r.Type_ = "DEPRECATED" then
    r.Name ++ "-X"
  else
    r.Name ++ "-" ++ r.Type_

/-- The function `hash`, lines 281-293; `none` is the nil-pointer panic. -/
def hash (r : DNSRecord) : Option String :=
  if r.Type_ = "MX" then
    match r.Priority with
    | none => none
    | some priority =>
      some (md5Hex (getZoneName r ++ "-" ++ r.Type_ ++ "-" ++ toString r.TTL ++ "-"
        ++ r.Name ++ "-" ++ r.Content ++ "-" ++ toString priority))
  else if r.Type_ = "A" ∨ r.Type_ = "CNAME" ∨ r.Type_ = "DEPRECATED" then
    match r.Proxied with
    | none => none
    | some proxied =>
      some (md5Hex (getZoneName r ++ "-" ++ "X" ++ "-" ++ toString r.TTL ++ "-"
        ++ r.Name ++ "-" ++ r.Content ++ "-" ++ toString proxied))
  else
    some (md5Hex (getZoneName r ++ "-" ++ r.Type_ ++ "-" ++ toString r.TTL ++ "-"
      ++ r.Name ++ "-" ++ r.Content))

/-! ## The diff of `main`, lines 103-148 -/

/-- First loop, lines 114-116: `managed.Add(nt(record))`. -/
def loopManaged : List DNSRecord → Set String → Set String
  | [], managed => managed
  | record :: rest, managed => loopManaged rest (managed.Add (nt record)).1

/-- The sets filled by the second loop. -/
structure Declared where
  cnames : Set String
  defined : Set String
  deprecate : Set String

/-- Second loop, lines 118-130. -/
def loopDeclared : List DNSRecord → Declared → Except Failure Declared
  | [], s => .ok s
  | record :: rest, s =>
    if record.Type_ = "CNAME" then
      if s.cnames.Has record.Name then
        .error (.cnameDuplicated record.Name)
      else
        match hash record with
        | none => .error .nilDereference
        | some h =>
          loopDeclared rest
            ⟨(s.cnames.Add record.Name).1, (s.defined.Add h).1, s.deprecate⟩
    else if record.Type_ = "DEPRECATED" then
      loopDeclared rest ⟨s.cnames, s.defined, (s.deprecate.Add record.Name).1⟩
    else
      match hash record with
      | none => .error .nilDereference
      | some h => loopDeclared rest ⟨s.cnames, (s.defined.Add h).1, s.deprecate⟩

/-- Third loop, lines 132-140, on the state `(deleting, stored)`. -/
def loopActual (managed defined deprecate : Set String) :
    List DNSRecord → List DNSRecord × Set String →
      Except Failure (List DNSRecord × Set String)
  | [], st => .ok st
  | record :: rest, (deleting, stored) =>
    if managed.Has (nt record) then
      match hash record with
      | none => .error .nilDereference
      | some h =>
        if !defined.Has h || deprecate.Has record.Name then
          loopActual managed defined deprecate rest
            (deleting ++ [record], (stored.Add h).1)
        else
          loopActual managed defined deprecate rest (deleting, (stored.Add h).1)
    else
      loopActual managed defined deprecate rest (deleting, stored)

/-- Fourth loop, lines 142-148, on the state `adding`. -/
def loopAdding (stored : Set String) :
    List DNSRecord → List DNSRecord → Except Failure (List DNSRecord)
  | [], adding => .ok adding
  | record :: rest, adding =>
    if record.Type_ ≠ "DEPRECATED" then
      match hash record with
      | none => .error .nilDereference
      | some h =>
        if !stored.Has h then loopAdding stored rest (adding ++ [record])
        else loopAdding stored rest adding
    else
      loopAdding stored rest adding

/-- Lines 103-148 of `main`: from the declared records `dfRecords` and the
provider records `cfRecords` to `(deleting, adding)`. -/
def diff (dfRecords cfRecords : List DNSRecord) :
    Except Failure (List DNSRecord × List DNSRecord) :=
  let managed := loopManaged dfRecords SetOf
  match loopDeclared dfRecords ⟨SetOf, SetOf, SetOf⟩ with
  | .error e => .error e
  | .ok s =>
    match loopActual managed s.defined s.deprecate cfRecords ([], SetOf) with
    | .error e => .error e
    | .ok (deleting, stored) =>
      match loopAdding stored dfRecords [] with
      | .error e => .error e
      | .ok adding => .ok (deleting, adding)

/-! ## Zone validation of the walk, lines 43-48 and 66-98 -/

/-- Lines 43-48: `zoneIds[zone.Name] = zone.ID` for each zone; the map is
the list of its bindings, the latest first. -/
def zoneIdsOf : List Zone → List (String × String) → List (String × String)
  | [], zoneIds => zoneIds
  | zone :: rest, zoneIds => zoneIdsOf rest ((zone.Name, zone.ID) :: zoneIds)

/-- Lines 85-91: every record of one file has its zone in `zoneIds`. -/
def validate (zoneIds : List (String × String)) :
    List DNSRecord → Except Failure Unit
  | [] => .ok ()
  | record :: rest =>
    match zoneIds.lookup (getZoneName record) with
    | none => .error (.unmanagedZone (getZoneName record))
    | some _ => validate zoneIds rest

/-- The walk callback over the files, each given by its parsed records:
validate, then `dfRecords = append(dfRecords, records...)`. -/
def walk (zoneIds : List (String × String)) :
    List (List DNSRecord) → List DNSRecord → Except Failure (List DNSRecord)
  | [], dfRecords => .ok dfRecords
  | records :: files, dfRecords =>
    match validate zoneIds records with
    | .error e => .error e
    | .ok _ => walk zoneIds files (dfRecords ++ records)

/-- The run up to line 148: zone map, walk with validation, diff. -/
def reconcile (zones : List Zone) (files : List (List DNSRecord))
    (cfRecords : List DNSRecord) :
    Except Failure (List DNSRecord × List DNSRecord) :=
  match walk (zoneIdsOf zones []) files [] with
  | .error e => .error e
  | .ok dfRecords => diff dfRecords cfRecords

/-! ## The apply phase, lines 254-277 -/

/-- The records the provider holds for the creations of lines 262-277: the
fields passed to `CreateDNSRecord`, under the ids `ids i, ids (i+1), ...`. -/
def created (ids : Nat → String) : Nat → List DNSRecord → List DNSRecord
  | _, [] => []
  | i, record :: rest =>
    { ID := ids i, Type_ := record.Type_, Name := record.Name,
      Content := record.Content, TTL := record.TTL,
      Priority := record.Priority, Proxied := record.Proxied }
      :: created ids (i + 1) rest

/-- Provider records after lines 254-277: the records of `deleting` are
removed, those of `adding` are created under provider-chosen ids. -/
def applyOps (cfRecords deleting adding : List DNSRecord) (ids : Nat → String) :
    List DNSRecord :=
  cfRecords.filter (fun a => !List.elem a deleting) ++ created ids 0 adding

/-! ## The loop bodies as tests on one record -/

/-- The test of lines 133-135 on one provider record. -/
def delTest (M D P : Set String) (a : DNSRecord) : Bool :=
  M.Has (nt a) &&
    (match hash a with
     | some h => !D.Has h || P.Has a.Name
     | none => false)

/-- The test of lines 143-144 on one declared record. -/
def addTest (S : Set String) (d : DNSRecord) : Bool :=
  decide (d.Type_ ≠ "DEPRECATED") &&
    (match hash d with
     | some h => !S.Has h
     | none => false)

/-! ## The delete-set and the add-set in the words of the specification -/

/-- A provider record is marked for deletion: its IdentityKey is that of a
declared record, and its ContentHash is that of no non-DEPRECATED declared
record or its name is that of a DEPRECATED declared record. -/
def specDeleteSet (df cf : List DNSRecord) : List DNSRecord :=
  cf.filter fun a => decide
    ((∃ d ∈ df, nt a = nt d) ∧
      ((¬ ∃ d ∈ df, d.Type_ ≠ "DEPRECATED" ∧ hash d = hash a) ∨
        ∃ t ∈ df, t.Type_ = "DEPRECATED" ∧ t.Name = a.Name))

/-- A declared record is an add: it is not DEPRECATED and its ContentHash is
that of no provider record with a managed IdentityKey. -/
def specAddSet (df cf : List DNSRecord) : List DNSRecord :=
  df.filter fun d => decide
    (d.Type_ ≠ "DEPRECATED" ∧
      ¬ ∃ a ∈ cf, (∃ d' ∈ df, nt a = nt d') ∧ hash a = hash d)

/-! ## The ContentHash in the words of the specification -/

/-- The type field of the ContentHash as the specification words it: `X` for
A and CNAME, the literal type for every other type, DEPRECATED included. -/
def claimedHashType (r : DNSRecord) : String :=
  if r.Type_ = "A" ∨ r.Type_ = "CNAME" then "X" else r.Type_

/-- The type field of the ContentHash with DEPRECATED in the class `X`. -/
def hashType (r : DNSRecord) : String :=
  if r.Type_ = "A" ∨ r.Type_ = "CNAME" ∨ r.Type_ = "DEPRECATED" then "X" else r.Type_

/-- The extra field of the ContentHash: priority for MX, proxied for A, CNAME
and DEPRECATED, absent for every other type. -/
def hashExtra (r : DNSRecord) : List String :=
  if r.Type_ = "MX" then
    match r.Priority with
    | some priority => [toString priority]
    | none => []
  else if r.Type_ = "A" ∨ r.Type_ = "CNAME" ∨ r.Type_ = "DEPRECATED" then
    match r.Proxied with
    | some proxied => [toString proxied]
    | none => []
  else []

/-- The hex MD5 digest of `(zone, T, ttl, name, content, extra)` joined by
`-`, for the type field `T`. -/
def digestOfFields (T : String) (r : DNSRecord) : String :=
  md5Hex ("-".intercalate
    ([getZoneName r, T, toString r.TTL, r.Name, r.Content] ++ hashExtra r))

/-! ## Concrete records used to exercise the statements -/

/-- Declared `A www.example.com` with ttl 300, content 1.2.3.4, not proxied. -/
def declaredA : DNSRecord :=
  ⟨"", "A", "www.example.com", "1.2.3.4", 300, none, some false⟩

/-- Provider record `r1`: the same slot with content 5.6.7.8. -/
def actualR1 : DNSRecord :=
  ⟨"r1", "A", "www.example.com", "5.6.7.8", 300, none, some false⟩

/-- Provider record `r2`: a TXT record that no declaration claims. -/
def foreignTxt : DNSRecord :=
  ⟨"r2", "TXT", "mail.example.com", "v=spf1 -all", 120, none, some false⟩

/-- Declared `A www.example.com` with ttl 300, content 1.2.3.4, proxied. -/
def declaredProxied : DNSRecord :=
  ⟨"", "A", "www.example.com", "1.2.3.4", 300, none, some true⟩

/-- The provider's copy of `declaredProxied` under the provider id `id`. -/
def actualProxied (id : String) : DNSRecord :=
  ⟨id, "A", "www.example.com", "1.2.3.4", 300, none, some true⟩

/-- Tombstone for the name `www.example.com`. -/
def tombstoneWww : DNSRecord :=
  ⟨"", "DEPRECATED", "www.example.com", "", 0, none, none⟩

/-- Declared CNAME `a.example.com` with no `proxied` field. -/
def cnameNoProxied : DNSRecord :=
  ⟨"", "CNAME", "a.example.com", "b.example.com", 300, none, none⟩

/-- Declared CNAME `a.example.com` to `b.example.com`, not proxied. -/
def cnameB : DNSRecord :=
  ⟨"", "CNAME", "a.example.com", "b.example.com", 300, none, some false⟩

/-- Declared CNAME `a.example.com` to `c.example.com`, not proxied. -/
def cnameC : DNSRecord :=
  ⟨"", "CNAME", "a.example.com", "c.example.com", 300, none, some false⟩

/-- The provider zone `example.com` with id `z1`. -/
def zoneExample : Zone := ⟨"z1", "example.com"⟩

/-- Declared A record in the zone `other.org`. -/
def declaredOther : DNSRecord :=
  ⟨"", "A", "www.other.org", "1.2.3.4", 300, none, some false⟩

/-- Declared AAAA record of the name `www.example.com`. -/
def declaredAAAA : DNSRecord :=
  ⟨"", "AAAA", "www.example.com", "2001:db8::1", 300, none, some false⟩

/-- Tombstone for `www.example.com` that carries a `proxied` field. -/
def tombstoneProxied : DNSRecord :=
  ⟨"", "DEPRECATED", "www.example.com", "", 0, none, some false⟩

/-- Declared MX record with priority 10. -/
def declaredMX : DNSRecord :=
  ⟨"", "MX", "example.com", "mail.example.com", 300, some 10, none⟩

/-- Tombstone for the name `old.example.com`. -/
def tombstoneOld : DNSRecord :=
  ⟨"", "DEPRECATED", "old.example.com", "", 0, none, none⟩

/-- Provider record `r3`: the A record of `old.example.com`. -/
def actualOld : DNSRecord :=
  ⟨"r3", "A", "old.example.com", "9.9.9.9", 300, none, some false⟩

/-- Two records agree on every field but the provider id. -/
def SameButID (c r : DNSRecord) : Prop :=
  c.Type_ = r.Type_ ∧ c.Name = r.Name ∧ c.Content = r.Content ∧ c.TTL = r.TTL ∧
    c.Priority = r.Priority ∧ c.Proxied = r.Proxied

instance (c r : DNSRecord) : Decidable (SameButID c r) := by
  unfold SameButID
  infer_instance

/-- The optional field that `hash` dereferences is present: `Priority` for
MX, `Proxied` for A, CNAME and DEPRECATED. -/
def fieldsPresent (r : DNSRecord) : Prop :=
  (r.Type_ = "MX" → r.Priority ≠ none) ∧
    (r.Type_ = "A" ∨ r.Type_ = "CNAME" ∨ r.Type_ = "DEPRECATED" → r.Proxied ≠ none)

instance (r : DNSRecord) : Decidable (fieldsPresent r) := by
  unfold fieldsPresent
  infer_instance

/-- Two declared records at different positions are CNAME with one name. -/
def DuplicateCname (df : List DNSRecord) : Prop :=
  ∃ (i j : Nat) (x y : DNSRecord), i < j ∧ df[i]? = some x ∧ df[j]? = some y ∧
    x.Type_ = "CNAME" ∧ y.Type_ = "CNAME" ∧ x.Name = y.Name

/-! ## Lemmas on `Set` -/

theorem Set.Has_SetOf {T : Type} [DecidableEq T] (x : T) :
    (SetOf : Set T).Has x = false := rfl

theorem Set.Has_Add {T : Type} [DecidableEq T] (s : Set T) (y x : T) :
    (s.Add y).1.Has x = true ↔ x = y ∨ s.Has x = true := by
  unfold Set.Add Set.Has
  by_cases hy : List.elem y s = true
  · simp only [hy, if_true]
    constructor
    · intro h; exact Or.inr h
    · rintro (rfl | h)
      · exact hy
      · exact h
  · simp only [hy]
    simp [List.elem_cons]

theorem loopManaged_Has (df : List DNSRecord) (m : Set String) (k : String) :
    (loopManaged df m).Has k = true ↔ m.Has k = true ∨ ∃ d ∈ df, nt d = k := by
  induction df generalizing m with
  | nil => simp [loopManaged]
  | cons r rest ih =>
    simp only [loopManaged, ih, Set.Has_Add, List.mem_cons, exists_eq_or_imp]
    constructor
    · rintro ((rfl | h) | h)
      · exact Or.inr (Or.inl rfl)
      · exact Or.inl h
      · exact Or.inr (Or.inr h)
    · rintro (h | h | h)
      · exact Or.inl (Or.inr h)
      · exact Or.inl (Or.inl h.symm)
      · exact Or.inr h

/-! ## The loops as filters -/

theorem loopDeclared_ok {df : List DNSRecord} {s s' : Declared}
    (h : loopDeclared df s = .ok s') :
    (∀ x, s'.defined.Has x = true ↔
      s.defined.Has x = true ∨ ∃ d ∈ df, d.Type_ ≠ "DEPRECATED" ∧ hash d = some x) ∧
    (∀ n, s'.deprecate.Has n = true ↔
      s.deprecate.Has n = true ∨ ∃ d ∈ df, d.Type_ = "DEPRECATED" ∧ d.Name = n) ∧
    (∀ d ∈ df, d.Type_ ≠ "DEPRECATED" → ∃ x, hash d = some x) := by
  induction df generalizing s with
  | nil =>
    simp only [loopDeclared, Except.ok.injEq] at h
    subst h
    simp
  | cons r rest ih =>
    unfold loopDeclared at h
    by_cases hc : r.Type_ = "CNAME"
    · have hnd : r.Type_ ≠ "DEPRECATED" := by rw [hc]; decide
      simp only [hc, if_true] at h
      by_cases hh : s.cnames.Has r.Name = true
      · simp [hh] at h
      · simp only [hh] at h
        cases hr : hash r with
        | none => simp [hr] at h
        | some x0 =>
          simp only [hr] at h
          obtain ⟨h1, h2, h3⟩ := ih h
          refine ⟨?_, ?_, ?_⟩
          · intro x
            rw [h1 x, Set.Has_Add]
            simp only [List.mem_cons, exists_eq_or_imp, hr, Option.some.injEq]
            constructor
            · rintro ((rfl | h) | h)
              · exact Or.inr (Or.inl ⟨hnd, rfl⟩)
              · exact Or.inl h
              · exact Or.inr (Or.inr h)
            · rintro (h | ⟨_, h⟩ | h)
              · exact Or.inl (Or.inr h)
              · exact Or.inl (Or.inl h.symm)
              · exact Or.inr h
          · intro n
            rw [h2 n]
            simp only [List.mem_cons, exists_eq_or_imp]
            constructor
            · rintro (h | h)
              · exact Or.inl h
              · exact Or.inr (Or.inr h)
            · rintro (h | ⟨h, _⟩ | h)
              · exact Or.inl h
              · exact absurd h hnd
              · exact Or.inr h
          · intro d hd hdd
            rcases List.mem_cons.1 hd with rfl | hd
            · exact ⟨x0, hr⟩
            · exact h3 d hd hdd
    · simp only [hc, if_false] at h
      by_cases hd : r.Type_ = "DEPRECATED"
      · simp only [hd, if_true] at h
        obtain ⟨h1, h2, h3⟩ := ih h
        refine ⟨?_, ?_, ?_⟩
        · intro x
          rw [h1 x]
          simp only [List.mem_cons, exists_eq_or_imp]
          constructor
          · rintro (h | h)
            · exact Or.inl h
            · exact Or.inr (Or.inr h)
          · rintro (h | ⟨h, _⟩ | h)
            · exact Or.inl h
            · exact absurd hd h
            · exact Or.inr h
        · intro n
          rw [h2 n, Set.Has_Add]
          simp only [List.mem_cons, exists_eq_or_imp]
          constructor
          · rintro ((rfl | h) | h)
            · exact Or.inr (Or.inl ⟨hd, rfl⟩)
            · exact Or.inl h
            · exact Or.inr (Or.inr h)
          · rintro (h | ⟨_, h⟩ | h)
            · exact Or.inl (Or.inr h)
            · exact Or.inl (Or.inl h.symm)
            · exact Or.inr h
        · intro d hd2 hdd
          rcases List.mem_cons.1 hd2 with rfl | hd2
          · exact absurd hd hdd
          · exact h3 d hd2 hdd
      · simp only [hd, if_false] at h
        cases hr : hash r with
        | none => simp [hr] at h
        | some x0 =>
          simp only [hr] at h
          obtain ⟨h1, h2, h3⟩ := ih h
          refine ⟨?_, ?_, ?_⟩
          · intro x
            rw [h1 x, Set.Has_Add]
            simp only [List.mem_cons, exists_eq_or_imp, hr, Option.some.injEq]
            constructor
            · rintro ((rfl | h) | h)
              · exact Or.inr (Or.inl ⟨hd, rfl⟩)
              · exact Or.inl h
              · exact Or.inr (Or.inr h)
            · rintro (h | ⟨_, h⟩ | h)
              · exact Or.inl (Or.inr h)
              · exact Or.inl (Or.inl h.symm)
              · exact Or.inr h
          · intro n
            rw [h2 n]
            simp only [List.mem_cons, exists_eq_or_imp]
            constructor
            · rintro (h | h)
              · exact Or.inl h
              · exact Or.inr (Or.inr h)
            · rintro (h | ⟨h, _⟩ | h)
              · exact Or.inl h
              · exact absurd h hd
              · exact Or.inr h
          · intro d hd2 hdd
            rcases List.mem_cons.1 hd2 with rfl | hd2
            · exact ⟨x0, hr⟩
            · exact h3 d hd2 hdd

theorem loopActual_eq (M D P : Set String) (cf del : List DNSRecord) (st : Set String)
    (hs : ∀ a ∈ cf, M.Has (nt a) = true → ∃ x, hash a = some x) :
    ∃ st', loopActual M D P cf (del, st) = .ok (del ++ cf.filter (delTest M D P), st') ∧
      ∀ x, st'.Has x = true ↔
        st.Has x = true ∨ ∃ a ∈ cf, M.Has (nt a) = true ∧ hash a = some x := by
  induction cf generalizing del st with
  | nil => exact ⟨st, by simp [loopActual], by simp⟩
  | cons r rest ih =>
    have hrest : ∀ a ∈ rest, M.Has (nt a) = true → ∃ x, hash a = some x :=
      fun a ha => hs a (List.mem_cons_of_mem _ ha)
    unfold loopActual
    by_cases hm : M.Has (nt r) = true
    · obtain ⟨x0, hx0⟩ := hs r (List.mem_cons_self _ _) hm
      simp only [hm, if_true, hx0]
      by_cases ht : (!D.Has x0 || P.Has r.Name) = true
      · simp only [ht, if_true]
        obtain ⟨st', e, hst⟩ := ih (del ++ [r]) (st.Add x0).1 hrest
        refine ⟨st', ?_, ?_⟩
        · rw [e]
          have : delTest M D P r = true := by simp [delTest, hm, hx0, ht]
          simp [List.filter_cons, this]
        · intro x
          rw [hst x, Set.Has_Add]
          simp only [List.mem_cons, exists_eq_or_imp, hx0, Option.some.injEq, hm, true_and]
          constructor
          · rintro ((rfl | h) | h)
            · exact Or.inr (Or.inl rfl)
            · exact Or.inl h
            · exact Or.inr (Or.inr h)
          · rintro (h | h | h)
            · exact Or.inl (Or.inr h)
            · exact Or.inl (Or.inl h.symm)
            · exact Or.inr h
      · simp only [ht]
        obtain ⟨st', e, hst⟩ := ih del (st.Add x0).1 hrest
        refine ⟨st', ?_, ?_⟩
        · rw [if_neg (by simp), e]
          have : delTest M D P r = false := by
            simp only [delTest, hm, hx0, Bool.true_and]
            simpa using ht
          simp [List.filter_cons, this]
        · intro x
          rw [hst x, Set.Has_Add]
          simp only [List.mem_cons, exists_eq_or_imp, hx0, Option.some.injEq, hm, true_and]
          constructor
          · rintro ((rfl | h) | h)
            · exact Or.inr (Or.inl rfl)
            · exact Or.inl h
            · exact Or.inr (Or.inr h)
          · rintro (h | h | h)
            · exact Or.inl (Or.inr h)
            · exact Or.inl (Or.inl h.symm)
            · exact Or.inr h
    · simp only [hm]
      obtain ⟨st', e, hst⟩ := ih del st hrest
      refine ⟨st', ?_, ?_⟩
      · rw [if_neg (by simp), e]
        have : delTest M D P r = false := by simp [delTest, hm]
        simp [List.filter_cons, this]
      · intro x
        rw [hst x]
        simp only [List.mem_cons, exists_eq_or_imp, hm]
        simp

theorem loopActual_some {M D P : Set String} {cf : List DNSRecord}
    {st r : List DNSRecord × Set String}
    (h : loopActual M D P cf st = .ok r) :
    ∀ a ∈ cf, M.Has (nt a) = true → ∃ x, hash a = some x := by
  induction cf generalizing st with
  | nil => simp
  | cons c rest ih =>
    obtain ⟨del, stored⟩ := st
    unfold loopActual at h
    intro a ha hm
    by_cases hc : M.Has (nt c) = true
    · simp only [hc, if_true] at h
      cases hr : hash c with
      | none => simp [hr] at h
      | some x0 =>
        simp only [hr] at h
        rcases List.mem_cons.1 ha with rfl | ha
        · exact ⟨x0, hr⟩
        · split at h
          · exact ih h a ha hm
          · exact ih h a ha hm
    · rw [if_neg hc] at h
      rcases List.mem_cons.1 ha with rfl | ha
      · exact absurd hm hc
      · exact ih h a ha hm

theorem loopActual_error {M D P : Set String} {cf : List DNSRecord}
    {st : List DNSRecord × Set String} {e : Failure}
    (h : loopActual M D P cf st = .error e) : e = .nilDereference := by
  induction cf generalizing st with
  | nil => simp [loopActual] at h
  | cons c rest ih =>
    obtain ⟨del, stored⟩ := st
    unfold loopActual at h
    split at h
    · split at h
      · simpa using h.symm
      · split at h
        · exact ih h
        · exact ih h
    · exact ih h

theorem loopAdding_eq (S : Set String) (df add : List DNSRecord)
    (hs : ∀ d ∈ df, d.Type_ ≠ "DEPRECATED" → ∃ x, hash d = some x) :
    loopAdding S df add = .ok (add ++ df.filter (addTest S)) := by
  induction df generalizing add with
  | nil => simp [loopAdding]
  | cons r rest ih =>
    have hrest : ∀ d ∈ rest, d.Type_ ≠ "DEPRECATED" → ∃ x, hash d = some x :=
      fun d hd => hs d (List.mem_cons_of_mem _ hd)
    unfold loopAdding
    by_cases hd : r.Type_ = "DEPRECATED"
    · rw [if_neg (by simpa using hd), ih add hrest]
      have : addTest S r = false := by simp [addTest, hd]
      simp [List.filter_cons, this]
    · obtain ⟨x0, hx0⟩ := hs r (List.mem_cons_self _ _) hd
      rw [if_pos hd]
      simp only [hx0]
      by_cases ht : S.Has x0 = true
      · have : addTest S r = false := by simp [addTest, hx0, ht]
        simp [ht, ih add hrest, List.filter_cons, this]
      · have : addTest S r = true := by simp [addTest, hx0, ht, hd]
        simp [ht, ih (add ++ [r]) hrest, List.filter_cons, this]

theorem loopAdding_error {S : Set String} {df add : List DNSRecord} {e : Failure}
    (h : loopAdding S df add = .error e) : e = .nilDereference := by
  induction df generalizing add with
  | nil => simp [loopAdding] at h
  | cons c rest ih =>
    unfold loopAdding at h
    split at h
    · split at h
      · simpa using h.symm
      · split at h
        · exact ih h
        · exact ih h
    · exact ih h

/-- The test of the third loop, on the sets of a successful second loop started
from empty sets, in the words of the specification. -/
theorem delTest_eq_spec {df : List DNSRecord} {s : Declared}
    (h : loopDeclared df ⟨SetOf, SetOf, SetOf⟩ = .ok s) (a : DNSRecord)
    (ha : (∃ d ∈ df, nt a = nt d) → ∃ x, hash a = some x) :
    delTest (loopManaged df SetOf) s.defined s.deprecate a = decide
      ((∃ d ∈ df, nt a = nt d) ∧
        ((¬ ∃ d ∈ df, d.Type_ ≠ "DEPRECATED" ∧ hash d = hash a) ∨
          ∃ t ∈ df, t.Type_ = "DEPRECATED" ∧ t.Name = a.Name)) := by
  obtain ⟨h1, h2, _⟩ := loopDeclared_ok h
  have hM : (loopManaged df SetOf).Has (nt a) = true ↔ ∃ d ∈ df, nt a = nt d := by
    rw [loopManaged_Has]
    simp only [Set.Has_SetOf, Bool.false_eq_true, false_or]
    constructor
    · rintro ⟨d, hd, e⟩; exact ⟨d, hd, e.symm⟩
    · rintro ⟨d, hd, e⟩; exact ⟨d, hd, e.symm⟩
  rw [Bool.eq_iff_iff, decide_eq_true_iff]
  unfold delTest
  rw [Bool.and_eq_true, hM]
  constructor
  · rintro ⟨hm, ht⟩
    refine ⟨hm, ?_⟩
    obtain ⟨x, hx⟩ := ha hm
    rw [hx] at ht ⊢
    simp only [Bool.or_eq_true, Bool.not_eq_true', ← Bool.not_eq_true] at ht
    rcases ht with ht | ht
    · left
      rw [h1 x] at ht
      simpa [Set.Has_SetOf] using ht
    · right
      rw [h2] at ht
      simpa [Set.Has_SetOf] using ht
  · rintro ⟨hm, ht⟩
    refine ⟨hm, ?_⟩
    obtain ⟨x, hx⟩ := ha hm
    rw [hx] at ht ⊢
    simp only [Bool.or_eq_true, Bool.not_eq_true', ← Bool.not_eq_true]
    rcases ht with ht | ht
    · left
      rw [h1 x]
      simpa [Set.Has_SetOf] using ht
    · right
      rw [h2]
      simpa [Set.Has_SetOf] using ht

theorem loopManaged_SetOf (df : List DNSRecord) (a : DNSRecord) :
    (loopManaged df SetOf).Has (nt a) = true ↔ ∃ d ∈ df, nt a = nt d := by
  rw [loopManaged_Has]
  simp only [Set.Has_SetOf, Bool.false_eq_true, false_or]
  constructor
  · rintro ⟨d, hd, e⟩; exact ⟨d, hd, e.symm⟩
  · rintro ⟨d, hd, e⟩; exact ⟨d, hd, e.symm⟩

theorem addTest_eq_spec {df cf : List DNSRecord} {st : Set String}
    (hst : ∀ x, st.Has x = true ↔
      (SetOf : Set String).Has x = true ∨
        ∃ a ∈ cf, (loopManaged df SetOf).Has (nt a) = true ∧ hash a = some x)
    (d : DNSRecord) (hd : d.Type_ ≠ "DEPRECATED" → ∃ x, hash d = some x) :
    addTest st d = decide
      (d.Type_ ≠ "DEPRECATED" ∧
        ¬ ∃ a ∈ cf, (∃ d' ∈ df, nt a = nt d') ∧ hash a = hash d) := by
  rw [Bool.eq_iff_iff, decide_eq_true_iff]
  unfold addTest
  rw [Bool.and_eq_true, decide_eq_true_iff]
  constructor
  · rintro ⟨hn, ht⟩
    refine ⟨hn, ?_⟩
    obtain ⟨x, hx⟩ := hd hn
    rw [hx] at ht ⊢
    simp only [Bool.not_eq_true', ← Bool.not_eq_true] at ht
    rintro ⟨a, ha, hm, e⟩
    exact ht ((hst x).2 (Or.inr ⟨a, ha, (loopManaged_SetOf df a).2 hm, e⟩))
  · rintro ⟨hn, ht⟩
    refine ⟨hn, ?_⟩
    obtain ⟨x, hx⟩ := hd hn
    rw [hx] at ht ⊢
    simp only [Bool.not_eq_true', ← Bool.not_eq_true]
    intro hh
    rcases (hst x).1 hh with h0 | ⟨a, ha, hm, e⟩
    · simp [Set.Has_SetOf] at h0
    · exact ht ⟨a, ha, (loopManaged_SetOf df a).1 hm, e⟩

/-- When the second loop succeeds and every provider record with a managed
IdentityKey can be hashed, the diff is the pair of the two filters. -/
theorem diff_of_declared {df cf : List DNSRecord} {s : Declared}
    (h : loopDeclared df ⟨SetOf, SetOf, SetOf⟩ = .ok s)
    (hcf : ∀ a ∈ cf, (∃ d ∈ df, nt a = nt d) → ∃ x, hash a = some x) :
    diff df cf = .ok (specDeleteSet df cf, specAddSet df cf) := by
  have hcf2 : ∀ a ∈ cf, (loopManaged df SetOf).Has (nt a) = true →
      ∃ x, hash a = some x :=
    fun a ha hm => hcf a ha ((loopManaged_SetOf df a).1 hm)
  obtain ⟨st, e1, hst⟩ :=
    loopActual_eq (loopManaged df SetOf) s.defined s.deprecate cf [] SetOf hcf2
  have hdf := (loopDeclared_ok h).2.2
  have e2 := loopAdding_eq st df [] hdf
  unfold diff
  simp only [h, e1, e2, List.nil_append]
  congr 2
  · exact List.filter_congr fun a ha => delTest_eq_spec h a (hcf a ha)
  · exact List.filter_congr fun d hd => addTest_eq_spec hst d (hdf d hd)

/-- A successful diff: the second loop succeeded and every provider record
with a managed IdentityKey was hashed. -/
theorem diff_ok_declared {df cf : List DNSRecord} {r : List DNSRecord × List DNSRecord}
    (h : diff df cf = .ok r) :
    (∃ s, loopDeclared df ⟨SetOf, SetOf, SetOf⟩ = .ok s) ∧
      ∀ a ∈ cf, (∃ d ∈ df, nt a = nt d) → ∃ x, hash a = some x := by
  unfold diff at h
  cases h1 : loopDeclared df ⟨SetOf, SetOf, SetOf⟩ with
  | error e => simp [h1] at h
  | ok s =>
    refine ⟨⟨s, rfl⟩, ?_⟩
    simp only [h1] at h
    cases h2 : loopActual (loopManaged df SetOf) s.defined s.deprecate cf ([], SetOf) with
    | error e => simp [h2] at h
    | ok r2 =>
      intro a ha hm
      exact loopActual_some h2 a ha ((loopManaged_SetOf df a).2 hm)

/-- A successful diff returns the two filters of the specification. -/
theorem diff_ok {df cf del add : List DNSRecord} (h : diff df cf = .ok (del, add)) :
    del = specDeleteSet df cf ∧ add = specAddSet df cf := by
  obtain ⟨⟨s, hs⟩, hcf⟩ := diff_ok_declared h
  have e := diff_of_declared hs hcf
  rw [h] at e
  simp only [Except.ok.injEq, Prod.mk.injEq] at e
  exact e

/-! ## The code run on concrete inputs -/

set_option maxRecDepth 100000 in
theorem md5Hex_empty : md5Hex "" = "d41d8cd98f00b204e9800998ecf8427e" := by decide

set_option maxRecDepth 100000 in
theorem md5Hex_abc : md5Hex "abc" = "900150983cd24fb0d6963f7d28e17f72" := by decide

set_option maxRecDepth 100000 in
theorem md5Hex_two_blocks :
    md5Hex ("1234567890123456789012345678901234567890"
      ++ "1234567890123456789012345678901234567890")
      = "57edf4a22be3c955ac49da2e2107b67a" := by decide

set_option maxRecDepth 100000 in
theorem hash_declaredA : hash declaredA = some "6b1878b9172b98424af47bbb51d43a97" := by
  decide

set_option maxRecDepth 100000 in
theorem diff_scenario :
    diff [declaredA] [actualR1] = .ok ([actualR1], [declaredA]) := by rfl

set_option maxRecDepth 100000 in
theorem diff_foreign :
    diff [declaredA] [actualR1, foreignTxt] = .ok ([actualR1], [declaredA]) := by rfl

set_option maxRecDepth 100000 in
theorem diff_tombstone_same :
    diff [tombstoneWww, declaredProxied] [actualProxied "r1"]
      = .ok ([actualProxied "r1"], []) := by rfl

set_option maxRecDepth 100000 in
theorem hash_declaredProxied :
    hash declaredProxied = some "63b8e900becb32a79522afa057d84958" := by decide

theorem hash_actualProxied (id : String) :
    hash (actualProxied id) = hash declaredProxied := rfl

theorem nt_actualProxied (id : String) :
    nt (actualProxied id) = nt declaredProxied := rfl

set_option maxRecDepth 100000 in
theorem diff_tombstone_first :
    diff [tombstoneWww, declaredA] [] = .ok ([], [declaredA]) := by rfl

set_option maxRecDepth 100000 in
theorem diff_tombstone_second :
    diff [tombstoneWww, declaredA] (applyOps [] [] [declaredA] (fun _ => "n1"))
      = .ok ([⟨"n1", "A", "www.example.com", "1.2.3.4", 300, none, some false⟩], []) := by
  rfl

set_option maxRecDepth 100000 in
theorem hash_tombstoneProxied_ne :
    hash tombstoneProxied
      ≠ some (digestOfFields (claimedHashType tombstoneProxied) tombstoneProxied) := by
  decide

set_option maxRecDepth 100000 in
theorem diff_retire :
    diff [tombstoneOld, declaredA] [actualR1, actualOld]
      = .ok ([actualR1, actualOld], [declaredA]) := by rfl

set_option maxRecDepth 100000 in
theorem hash_actualOld_ne : hash actualOld ≠ hash declaredA := by decide

theorem reconcile_scenario :
    reconcile [zoneExample] [[declaredA]] [actualR1] = .ok ([actualR1], [declaredA]) := by
  have hw : walk (zoneIdsOf [zoneExample] []) [[declaredA]] [] = .ok [declaredA] :=
    rfl
  rw [reconcile, hw]
  exact diff_scenario

/-! ## The delete-set and the add-set -/

/-- C1, no foreign deletion: when the diff succeeds, every record of the
delete-set has the IdentityKey `nt` of some declared record, and a record
whose IdentityKey is that of no declared record is not in the delete-set. -/
theorem no_foreign_deletion (df cf del add : List DNSRecord)
    (h : diff df cf = .ok (del, add)) :
    (∀ r ∈ del, ∃ d ∈ df, nt r = nt d) ∧
      (∀ a, (¬ ∃ d ∈ df, nt a = nt d) → a ∉ del) := by
  obtain ⟨hdel, _⟩ := diff_ok h
  have key : ∀ r ∈ del, ∃ d ∈ df, nt r = nt d := by
    intro r hr
    rw [hdel, specDeleteSet, List.mem_filter, decide_eq_true_iff] at hr
    exact hr.2.1
  exact ⟨key, fun a hn ha => hn (key a ha)⟩

/-- The statement C1 on declared `[declaredA]` and provider records
`[actualR1, foreignTxt]`: the TXT record stays out of the delete-set. -/
theorem no_foreign_deletion_witness :
    (∀ r ∈ [actualR1], ∃ d ∈ [declaredA], nt r = nt d) ∧
      (∀ a, (¬ ∃ d ∈ [declaredA], nt a = nt d) → a ∉ [actualR1]) :=
  no_foreign_deletion [declaredA] [actualR1, foreignTxt] [actualR1] [declaredA]
    diff_foreign

/-- C5, exact add and delete sets: when the diff succeeds, the delete-set is
the provider list filtered, in order and with the records unchanged, to the
records with a declared IdentityKey whose ContentHash is that of no
non-DEPRECATED declared record or whose name is that of a DEPRECATED declared
record; the add-set is the declared list filtered, in order, to the
non-DEPRECATED records whose ContentHash is that of no provider record with a
managed IdentityKey.  On the scenario (declared A www.example.com 1.2.3.4,
provider r1 with content 5.6.7.8, zone example.com) the delete-set is `[r1]`
and the add-set is the declared record. -/
theorem exact_add_delete_sets :
    (∀ df cf del add : List DNSRecord, diff df cf = .ok (del, add) →
      del = cf.filter (fun a => decide
        ((∃ d ∈ df, nt a = nt d) ∧
          ((¬ ∃ d ∈ df, d.Type_ ≠ "DEPRECATED" ∧ hash d = hash a) ∨
            ∃ t ∈ df, t.Type_ = "DEPRECATED" ∧ t.Name = a.Name))) ∧
      add = df.filter (fun d => decide
        (d.Type_ ≠ "DEPRECATED" ∧
          ¬ ∃ a ∈ cf, (∃ d' ∈ df, nt a = nt d') ∧ hash a = hash d))) ∧
    diff [declaredA] [actualR1] = .ok ([actualR1], [declaredA]) ∧
    reconcile [zoneExample] [[declaredA]] [actualR1] = .ok ([actualR1], [declaredA]) :=
  ⟨fun _ _ _ _ h => diff_ok h, diff_scenario, reconcile_scenario⟩

/-- The statement C5 at the scenario: both filters computed there. -/
theorem exact_add_delete_sets_witness :
    [actualR1] = [actualR1].filter (fun a => decide
        ((∃ d ∈ [declaredA], nt a = nt d) ∧
          ((¬ ∃ d ∈ [declaredA], d.Type_ ≠ "DEPRECATED" ∧ hash d = hash a) ∨
            ∃ t ∈ [declaredA], t.Type_ = "DEPRECATED" ∧ t.Name = a.Name))) ∧
      [declaredA] = [declaredA].filter (fun d => decide
        (d.Type_ ≠ "DEPRECATED" ∧
          ¬ ∃ a ∈ [actualR1], (∃ d' ∈ [declaredA], nt a = nt d') ∧ hash a = hash d)) :=
  exact_add_delete_sets.1 [declaredA] [actualR1] [actualR1] [declaredA] diff_scenario

/-- C4 as stated fails: with a tombstone for `www.example.com` declared next
to the A record, the provider record with the same ContentHash as the
declared A record and a managed IdentityKey is in the delete-set. -/
theorem content_equality_counterexample :
    ∃ del add d a, diff [tombstoneWww, declaredProxied] [actualProxied "r1"] = .ok (del, add) ∧
      d ∈ [tombstoneWww, declaredProxied] ∧ d.Type_ ≠ "DEPRECATED" ∧
      a ∈ [actualProxied "r1"] ∧
      (∃ d' ∈ [tombstoneWww, declaredProxied], nt a = nt d') ∧
      hash d = hash a ∧ a ∈ del :=
  ⟨[actualProxied "r1"], [], declaredProxied, actualProxied "r1", diff_tombstone_same,
    by simp, by decide, by simp, ⟨declaredProxied, by simp, rfl⟩, rfl, by simp⟩

/-- C4, content-equality short-circuit, amended: when the diff succeeds, a
non-DEPRECATED declared record `d` whose ContentHash equals that of a provider
record `a` with a managed IdentityKey is not in the add-set, and `a` is not in
the delete-set provided no DEPRECATED declared record has the name of `a`,
whatever the id of `a`; the declared A record (ttl 300, www.example.com,
1.2.3.4, proxied) against its provider copy under any id gives empty sets. -/
theorem content_equality_short_circuit :
    (∀ df cf del add : List DNSRecord, diff df cf = .ok (del, add) →
      ∀ d ∈ df, ∀ a ∈ cf, d.Type_ ≠ "DEPRECATED" → (∃ d' ∈ df, nt a = nt d') →
        hash d = hash a →
        d ∉ add ∧ ((∀ t ∈ df, t.Type_ = "DEPRECATED" → t.Name ≠ a.Name) → a ∉ del)) ∧
    (∀ id : String, diff [declaredProxied] [actualProxied id] = .ok ([], [])) := by
  constructor
  · intro df cf del add h d hd a ha hnd hm he
    obtain ⟨hdel, hadd⟩ := diff_ok h
    constructor
    · intro hin
      rw [hadd, specAddSet, List.mem_filter, decide_eq_true_iff] at hin
      exact hin.2.2 ⟨a, ha, hm, he.symm⟩
    · intro hnt hin
      rw [hdel, specDeleteSet, List.mem_filter, decide_eq_true_iff] at hin
      rcases hin.2.2 with h1 | ⟨t, ht, htd, htn⟩
      · exact h1 ⟨d, hd, hnd, he⟩
      · exact hnt t ht htd htn
  · intro id
    have hd : declaredProxied.Type_ ≠ "DEPRECATED" := by decide
    have hs : ∃ s, loopDeclared [declaredProxied] ⟨SetOf, SetOf, SetOf⟩ = .ok s := by
      simp only [loopDeclared, hash_declaredProxied]
      simp [declaredProxied]
    obtain ⟨s, hs⟩ := hs
    have hcf : ∀ a ∈ [actualProxied id], (∃ d ∈ [declaredProxied], nt a = nt d) →
        ∃ x, hash a = some x := by
      intro a ha _
      rw [List.mem_singleton] at ha
      subst ha
      exact ⟨_, (hash_actualProxied id).trans hash_declaredProxied⟩
    rw [diff_of_declared hs hcf]
    have h1 : specDeleteSet [declaredProxied] [actualProxied id] = [] := by
      rw [specDeleteSet, List.filter_eq_nil_iff]
      intro a ha
      rw [List.mem_singleton] at ha
      subst ha
      rw [decide_eq_true_iff]
      rintro ⟨_, h | ⟨t, ht, htd, _⟩⟩
      · exact h ⟨declaredProxied, List.mem_singleton.2 rfl, hd,
          (hash_actualProxied id).symm⟩
      · rw [List.mem_singleton] at ht
        subst ht
        exact hd htd
    have h2 : specAddSet [declaredProxied] [actualProxied id] = [] := by
      rw [specAddSet, List.filter_eq_nil_iff]
      intro d hd2
      rw [List.mem_singleton] at hd2
      subst hd2
      rw [decide_eq_true_iff]
      rintro ⟨_, h⟩
      exact h ⟨actualProxied id, List.mem_singleton.2 rfl,
        ⟨declaredProxied, List.mem_singleton.2 rfl, nt_actualProxied id⟩,
        hash_actualProxied id⟩
    rw [h1, h2]

/-- The statement C4 on the declared proxied A record and its provider copy
under the id `r7`. -/
theorem content_equality_short_circuit_witness :
    declaredProxied ∉ ([] : List DNSRecord) ∧
      ((∀ t ∈ [declaredProxied], t.Type_ = "DEPRECATED" → t.Name ≠ (actualProxied "r7").Name) →
        actualProxied "r7" ∉ ([] : List DNSRecord)) :=
  content_equality_short_circuit.1 [declaredProxied] [actualProxied "r7"] [] []
    (content_equality_short_circuit.2 "r7") declaredProxied (by simp)
    (actualProxied "r7") (by simp) (by decide)
    ⟨declaredProxied, by simp, nt_actualProxied "r7"⟩ (hash_actualProxied "r7").symm

/-! ## Tombstone dominance -/

theorem append_right_cancel_string {a b c : String} (h : a ++ c = b ++ c) : a = b := by
  apply String.ext
  have := congrArg String.data h
  rw [String.data_append, String.data_append] at this
  exact List.append_cancel_right this

/-- A list of characters is cut in one way only at its last hyphen. -/
theorem last_hyphen_unique {l1 l2 t1 t2 : List Char} (h1 : '-' ∉ t1) (h2 : '-' ∉ t2)
    (h : l1 ++ '-' :: t1 = l2 ++ '-' :: t2) : l1 = l2 ∧ t1 = t2 := by
  induction l1 generalizing l2 with
  | nil =>
    cases l2 with
    | nil =>
      rw [List.nil_append, List.nil_append, List.cons.injEq] at h
      exact ⟨rfl, h.2⟩
    | cons c l2 =>
      rw [List.nil_append, List.cons_append, List.cons.injEq] at h
      exact absurd (by rw [h.2]; simp) h1
  | cons c l1 ih =>
    cases l2 with
    | nil =>
      rw [List.nil_append, List.cons_append, List.cons.injEq] at h
      exact absurd (by rw [← h.2]; simp) h2
    | cons c2 l2 =>
      rw [List.cons_append, List.cons_append, List.cons.injEq] at h
      obtain ⟨e1, e2⟩ := ih h.2
      exact ⟨by rw [h.1, e1], e2⟩

/-- The IdentityKey `N-X` names the name `N` when the type has no hyphen. -/
theorem name_of_nt_X {a : DNSRecord} {N : String} (hty : '-' ∉ a.Type_.data)
    (h : nt a = N ++ "-X") : a.Name = N := by
  unfold nt at h
  by_cases hc : a.Type_ = "A" ∨ a.Type_ = "CNAME" ∨ a.Type_ = "DEPRECATED"
  · rw [if_pos hc] at h
    exact append_right_cancel_string h
  · rw [if_neg hc] at h
    have hd := congrArg String.data h
    rw [String.data_append, String.data_append, String.data_append] at hd
    have hX : '-' ∉ ['X'] := by decide
    have key : a.Name.data ++ '-' :: a.Type_.data = N.data ++ '-' :: ['X'] := by
      simpa using hd
    exact String.ext (last_hyphen_unique hty hX key).1

/-- C2, tombstone dominance: when the diff succeeds, for every declared
DEPRECATED record of name `N`, every provider record with the identity
`(N, X)`, that is of name `N` with the IdentityKey `nt` equal to `N-X`, is
in the delete-set, whatever its ttl, content and proxied; for a provider
record whose type has no hyphen the equality of `nt` with `N-X` alone puts it
in the delete-set; and the DEPRECATED record is not in the add-set. -/
theorem tombstone_dominance (df cf del add : List DNSRecord)
    (h : diff df cf = .ok (del, add)) (t : DNSRecord) (ht : t ∈ df)
    (htd : t.Type_ = "DEPRECATED") :
    (∀ a ∈ cf, a.Name = t.Name → nt a = t.Name ++ "-X" → a ∈ del) ∧
      (∀ a ∈ cf, '-' ∉ a.Type_.data → nt a = t.Name ++ "-X" → a ∈ del) ∧
      t ∉ add := by
  obtain ⟨hdel, hadd⟩ := diff_ok h
  have hnt : nt t = t.Name ++ "-X" := by simp [nt, htd]
  have key : ∀ a ∈ cf, a.Name = t.Name → nt a = t.Name ++ "-X" → a ∈ del := by
    intro a ha hname hkey
    rw [hdel, specDeleteSet, List.mem_filter, decide_eq_true_iff]
    exact ⟨ha, ⟨t, ht, hkey.trans hnt.symm⟩, Or.inr ⟨t, ht, htd, hname.symm⟩⟩
  refine ⟨key, ?_, ?_⟩
  · intro a ha hty hkey
    exact key a ha (name_of_nt_X hty hkey) hkey
  · intro hin
    rw [hadd, specAddSet, List.mem_filter, decide_eq_true_iff] at hin
    exact hin.2.1 htd

/-- The statement C2 on the tombstone for `www.example.com` declared next to
the proxied A record, against the provider copy `r1` of that A record: the
copy is deleted although its content is the declared one. -/
theorem tombstone_dominance_witness :
    (∀ a ∈ [actualProxied "r1"], a.Name = tombstoneWww.Name →
        nt a = tombstoneWww.Name ++ "-X" → a ∈ [actualProxied "r1"]) ∧
      (∀ a ∈ [actualProxied "r1"], '-' ∉ a.Type_.data →
        nt a = tombstoneWww.Name ++ "-X" → a ∈ [actualProxied "r1"]) ∧
      tombstoneWww ∉ ([] : List DNSRecord) :=
  tombstone_dominance [tombstoneWww, declaredProxied] [actualProxied "r1"]
    [actualProxied "r1"] [] diff_tombstone_same tombstoneWww (by simp) rfl

/-! ## Idempotence -/

theorem hash_SameButID {c r : DNSRecord} (h : SameButID c r) : hash c = hash r := by
  obtain ⟨h1, h2, h3, h4, h5, h6⟩ := h
  unfold hash getZoneName
  rw [h1, h2, h3, h4, h5, h6]

theorem nt_SameButID {c r : DNSRecord} (h : SameButID c r) : nt c = nt r := by
  obtain ⟨h1, h2, _⟩ := h
  unfold nt
  rw [h1, h2]

theorem mem_created {ids : Nat → String} {l : List DNSRecord} {i : Nat} {c : DNSRecord}
    (h : c ∈ created ids i l) : ∃ r ∈ l, SameButID c r := by
  induction l generalizing i with
  | nil => simp [created] at h
  | cons r rest ih =>
    rw [created, List.mem_cons] at h
    rcases h with rfl | h
    · exact ⟨r, List.mem_cons_self _ _, rfl, rfl, rfl, rfl, rfl, rfl⟩
    · obtain ⟨r2, hr2, hs⟩ := ih h
      exact ⟨r2, List.mem_cons_of_mem _ hr2, hs⟩

theorem created_mem (ids : Nat → String) {l : List DNSRecord} (i : Nat) {r : DNSRecord}
    (h : r ∈ l) : ∃ c ∈ created ids i l, SameButID c r := by
  induction l generalizing i with
  | nil => simp at h
  | cons r0 rest ih =>
    rw [created]
    rcases List.mem_cons.1 h with rfl | h
    · exact ⟨_, List.mem_cons_self _ _, rfl, rfl, rfl, rfl, rfl, rfl⟩
    · obtain ⟨c, hc, hs⟩ := ih (i + 1) h
      exact ⟨c, List.mem_cons_of_mem _ hc, hs⟩

/-- C3 as stated fails: a tombstone for `www.example.com` is declared next to
an A record of that name and the provider is empty; the first run adds the A
record, and the second run, on the provider list with that record created,
deletes it. -/
theorem idempotence_counterexample :
    ∃ del add, diff [tombstoneWww, declaredA] [] = .ok (del, add) ∧
      diff [tombstoneWww, declaredA] (applyOps [] del add (fun _ => "n1"))
        ≠ .ok ([], []) :=
  ⟨[], [declaredA], diff_tombstone_first, by rw [diff_tombstone_second]; simp⟩

/-- C3, idempotence, amended: when the diff succeeds with `(del, add)` and no
DEPRECATED declared record has the name of a non-DEPRECATED declared record
or of a provider record whose ContentHash is that of a non-DEPRECATED
declared record, the diff of the same declared list against the provider
list with `del` removed and `add` created under any ids succeeds with an
empty delete-set and an empty add-set. -/
theorem idempotence (df cf del add : List DNSRecord) (ids : Nat → String)
    (h : diff df cf = .ok (del, add))
    (hdecl : ∀ d ∈ df, d.Type_ ≠ "DEPRECATED" →
      ∀ t ∈ df, t.Type_ = "DEPRECATED" → t.Name ≠ d.Name)
    (hact : ∀ a ∈ cf, ∀ d ∈ df, d.Type_ ≠ "DEPRECATED" → hash a = hash d →
      ∀ t ∈ df, t.Type_ = "DEPRECATED" → t.Name ≠ a.Name) :
    diff df (applyOps cf del add ids) = .ok ([], []) := by
  obtain ⟨⟨s, hs⟩, hcf⟩ := diff_ok_declared h
  obtain ⟨hdel, hadd⟩ := diff_ok h
  have hdf := (loopDeclared_ok hs).2.2
  have hadd_mem : ∀ r, r ∈ add → r ∈ df ∧ r.Type_ ≠ "DEPRECATED" := by
    intro r hr
    rw [hadd, specAddSet, List.mem_filter, decide_eq_true_iff] at hr
    exact ⟨hr.1, hr.2.1⟩
  have hmem : ∀ a, a ∈ applyOps cf del add ids ↔
      (a ∈ cf ∧ a ∉ del) ∨ a ∈ created ids 0 add := by
    intro a
    simp [applyOps, List.mem_append, List.mem_filter]
  have hcf2 : ∀ a ∈ applyOps cf del add ids, (∃ d ∈ df, nt a = nt d) →
      ∃ x, hash a = some x := by
    intro a ha hm
    rcases (hmem a).1 ha with ⟨ha, _⟩ | ha
    · exact hcf a ha hm
    · obtain ⟨r, hr, hsame⟩ := mem_created ha
      rw [hash_SameButID hsame]
      exact hdf r (hadd_mem r hr).1 (hadd_mem r hr).2
  rw [diff_of_declared hs hcf2]
  have h1 : specDeleteSet df (applyOps cf del add ids) = [] := by
    rw [specDeleteSet, List.filter_eq_nil_iff]
    intro a ha
    rw [decide_eq_true_iff]
    rintro ⟨hm, htest⟩
    rcases (hmem a).1 ha with ⟨ha, hnd⟩ | ha
    · apply hnd
      rw [hdel, specDeleteSet, List.mem_filter, decide_eq_true_iff]
      exact ⟨ha, hm, htest⟩
    · obtain ⟨r, hr, hsame⟩ := mem_created ha
      obtain ⟨hrdf, hrnd⟩ := hadd_mem r hr
      rcases htest with h | ⟨t, ht, htd, htn⟩
      · exact h ⟨r, hrdf, hrnd, (hash_SameButID hsame).symm⟩
      · exact hdecl r hrdf hrnd t ht htd (htn.trans hsame.2.1)
  have h2 : specAddSet df (applyOps cf del add ids) = [] := by
    rw [specAddSet, List.filter_eq_nil_iff]
    intro d hd
    rw [decide_eq_true_iff]
    rintro ⟨hnd, hno⟩
    apply hno
    by_cases hin : d ∈ add
    · obtain ⟨c, hc, hsame⟩ := created_mem ids 0 hin
      exact ⟨c, (hmem c).2 (Or.inr hc), ⟨d, hd, nt_SameButID hsame⟩, hash_SameButID hsame⟩
    · have : ∃ a ∈ cf, (∃ d' ∈ df, nt a = nt d') ∧ hash a = hash d := by
        by_contra hcon
        apply hin
        rw [hadd, specAddSet, List.mem_filter, decide_eq_true_iff]
        exact ⟨hd, hnd, hcon⟩
      obtain ⟨a, ha, hm, he⟩ := this
      refine ⟨a, (hmem a).2 (Or.inl ⟨ha, ?_⟩), hm, he⟩
      intro hadel
      rw [hdel, specDeleteSet, List.mem_filter, decide_eq_true_iff] at hadel
      rcases hadel.2.2 with h | ⟨t, ht, htd, htn⟩
      · exact h ⟨d, hd, hnd, he.symm⟩
      · exact hact a ha d hd hnd he t ht htd htn
  rw [h1, h2]

/-- The statement C3 on a tombstone for `old.example.com` declared next to the
A record of `www.example.com`, against the provider records `r1` and `r3`:
after the two deletions and the creation the diff is empty. -/
theorem idempotence_witness :
    diff [tombstoneOld, declaredA]
      (applyOps [actualR1, actualOld] [actualR1, actualOld] [declaredA] (fun _ => "n1"))
      = .ok ([], []) :=
  idempotence [tombstoneOld, declaredA] [actualR1, actualOld] [actualR1, actualOld]
    [declaredA] (fun _ => "n1") diff_retire
    (by
      intro d hd hnd t ht htd
      simp only [List.mem_cons, List.mem_singleton, List.not_mem_nil, or_false] at hd ht
      rcases hd with rfl | rfl
      · exact absurd rfl hnd
      · rcases ht with rfl | rfl
        · decide
        · exact absurd htd (by decide))
    (by
      intro a ha d hd hnd he t ht htd
      simp only [List.mem_cons, List.mem_singleton, List.not_mem_nil, or_false]
        at ha hd ht
      rcases hd with rfl | rfl
      · exact absurd rfl hnd
      · rcases ht with rfl | rfl
        · rcases ha with rfl | rfl
          · decide
          · exact absurd he hash_actualOld_ne
        · exact absurd htd (by decide))

/-! ## CNAME uniqueness -/

theorem hash_some_iff (r : DNSRecord) : (∃ x, hash r = some x) ↔ fieldsPresent r := by
  unfold hash fieldsPresent
  by_cases h1 : r.Type_ = "MX"
  · have h2 : ¬ (r.Type_ = "A" ∨ r.Type_ = "CNAME" ∨ r.Type_ = "DEPRECATED") := by
      rw [h1]; decide
    cases hp : r.Priority <;> simp [h1, hp]
  · by_cases h2 : r.Type_ = "A" ∨ r.Type_ = "CNAME" ∨ r.Type_ = "DEPRECATED"
    · cases hp : r.Proxied <;> simp [h1, h2, hp]
    · simp [h1, h2]

theorem duplicateCname_cons (r : DNSRecord) (rest : List DNSRecord) :
    DuplicateCname (r :: rest) ↔
      (r.Type_ = "CNAME" ∧ ∃ y ∈ rest, y.Type_ = "CNAME" ∧ y.Name = r.Name) ∨
        DuplicateCname rest := by
  constructor
  · rintro ⟨i, j, x, y, hij, hx, hy, hxc, hyc, hn⟩
    cases j with
    | zero => exact absurd hij (Nat.not_lt_zero _)
    | succ j =>
      rw [List.getElem?_cons_succ] at hy
      cases i with
      | zero =>
        rw [List.getElem?_cons_zero, Option.some.injEq] at hx
        subst hx
        exact Or.inl ⟨hxc, y, List.getElem?_mem hy, hyc, hn.symm⟩
      | succ i =>
        rw [List.getElem?_cons_succ] at hx
        exact Or.inr ⟨i, j, x, y, Nat.lt_of_succ_lt_succ hij, hx, hy, hxc, hyc, hn⟩
  · rintro (⟨hrc, y, hy, hyc, hn⟩ | ⟨i, j, x, y, hij, hx, hy, hxc, hyc, hn⟩)
    · obtain ⟨j, hj⟩ := List.mem_iff_getElem?.1 hy
      exact ⟨0, j + 1, r, y, Nat.succ_pos _, List.getElem?_cons_zero,
        by rw [List.getElem?_cons_succ]; exact hj, hrc, hyc, hn.symm⟩
    · exact ⟨i + 1, j + 1, x, y, Nat.succ_lt_succ hij,
        by rw [List.getElem?_cons_succ]; exact hx,
        by rw [List.getElem?_cons_succ]; exact hy, hxc, hyc, hn⟩

theorem loopDeclared_duplicate {df : List DNSRecord} {s : Declared}
    (hs : ∀ d ∈ df, d.Type_ ≠ "DEPRECATED" → ∃ x, hash d = some x)
    (h : (∃ y ∈ df, y.Type_ = "CNAME" ∧ s.cnames.Has y.Name = true) ∨ DuplicateCname df) :
    ∃ n, loopDeclared df s = .error (.cnameDuplicated n) := by
  induction df generalizing s with
  | nil =>
    rcases h with ⟨y, hy, _⟩ | ⟨i, j, x, y, _, hx, _⟩
    · simp at hy
    · simp at hx
  | cons r rest ih =>
    have hrest : ∀ d ∈ rest, d.Type_ ≠ "DEPRECATED" → ∃ x, hash d = some x :=
      fun d hd => hs d (List.mem_cons_of_mem _ hd)
    rw [duplicateCname_cons] at h
    unfold loopDeclared
    by_cases hc : r.Type_ = "CNAME"
    · have hnd : r.Type_ ≠ "DEPRECATED" := by rw [hc]; decide
      rw [if_pos hc]
      by_cases hh : s.cnames.Has r.Name = true
      · exact ⟨r.Name, by rw [if_pos hh]⟩
      · rw [if_neg hh]
        obtain ⟨x0, hx0⟩ := hs r (List.mem_cons_self _ _) hnd
        simp only [hx0]
        apply ih hrest
        rcases h with ⟨y, hy, hyc, hyh⟩ | ⟨_, y, hy, hyc, hyn⟩ | h
        · rcases List.mem_cons.1 hy with rfl | hy
          · exact absurd hyh hh
          · exact Or.inl ⟨y, hy, hyc, (Set.Has_Add _ _ _).2 (Or.inr hyh)⟩
        · exact Or.inl ⟨y, hy, hyc, (Set.Has_Add _ _ _).2 (Or.inl hyn)⟩
        · exact Or.inr h
    · rw [if_neg hc]
      have hnext : (∃ y ∈ rest, y.Type_ = "CNAME" ∧ s.cnames.Has y.Name = true) ∨
          DuplicateCname rest := by
        rcases h with ⟨y, hy, hyc, hyh⟩ | ⟨hrc, _⟩ | h
        · rcases List.mem_cons.1 hy with rfl | hy
          · exact absurd hyc hc
          · exact Or.inl ⟨y, hy, hyc, hyh⟩
        · exact absurd hrc hc
        · exact Or.inr h
      by_cases hd : r.Type_ = "DEPRECATED"
      · rw [if_pos hd]
        exact ih hrest hnext
      · rw [if_neg hd]
        obtain ⟨x0, hx0⟩ := hs r (List.mem_cons_self _ _) hd
        simp only [hx0]
        exact ih hrest hnext

theorem loopDeclared_duplicate_only {df : List DNSRecord} {s : Declared} {n : String}
    (h : loopDeclared df s = .error (.cnameDuplicated n)) :
    (∃ y ∈ df, y.Type_ = "CNAME" ∧ s.cnames.Has y.Name = true) ∨ DuplicateCname df := by
  induction df generalizing s with
  | nil => simp [loopDeclared] at h
  | cons r rest ih =>
    rw [duplicateCname_cons]
    unfold loopDeclared at h
    by_cases hc : r.Type_ = "CNAME"
    · rw [if_pos hc] at h
      by_cases hh : s.cnames.Has r.Name = true
      · exact Or.inl ⟨r, List.mem_cons_self _ _, hc, hh⟩
      · rw [if_neg hh] at h
        cases hr : hash r with
        | none => simp [hr] at h
        | some x0 =>
          simp only [hr] at h
          rcases ih h with ⟨y, hy, hyc, hyh⟩ | hdup
          · rcases (Set.Has_Add _ _ _).1 hyh with hyn | hyh
            · exact Or.inr (Or.inl ⟨hc, y, hy, hyc, hyn⟩)
            · exact Or.inl ⟨y, List.mem_cons_of_mem _ hy, hyc, hyh⟩
          · exact Or.inr (Or.inr hdup)
    · rw [if_neg hc] at h
      have hfin : ((∃ y ∈ rest, y.Type_ = "CNAME" ∧ s.cnames.Has y.Name = true) ∨
          DuplicateCname rest) →
          (∃ y ∈ r :: rest, y.Type_ = "CNAME" ∧ s.cnames.Has y.Name = true) ∨
            (r.Type_ = "CNAME" ∧ ∃ y ∈ rest, y.Type_ = "CNAME" ∧ y.Name = r.Name) ∨
              DuplicateCname rest := by
        rintro (⟨y, hy, hyc, hyh⟩ | hdup)
        · exact Or.inl ⟨y, List.mem_cons_of_mem _ hy, hyc, hyh⟩
        · exact Or.inr (Or.inr hdup)
      by_cases hd : r.Type_ = "DEPRECATED"
      · rw [if_pos hd] at h
        have hi := ih h
        exact hfin hi
      · rw [if_neg hd] at h
        cases hr : hash r with
        | none => simp [hr] at h
        | some x0 =>
          simp only [hr] at h
          have hi := ih h
          exact hfin hi

/-- The duplicate error of the diff is the duplicate error of the second
loop, which reads the declared list only. -/
theorem diff_duplicate_iff (df cf : List DNSRecord) (n : String) :
    diff df cf = .error (.cnameDuplicated n) ↔
      loopDeclared df ⟨SetOf, SetOf, SetOf⟩ = .error (.cnameDuplicated n) := by
  unfold diff
  cases h1 : loopDeclared df ⟨SetOf, SetOf, SetOf⟩ with
  | error e => simp
  | ok s =>
    simp only
    cases h2 : loopActual (loopManaged df SetOf) s.defined s.deprecate cf ([], SetOf) with
    | error e =>
      have := loopActual_error h2
      subst this
      simp
    | ok r2 =>
      obtain ⟨deleting, stored⟩ := r2
      simp only
      cases h3 : loopAdding stored df [] with
      | error e =>
        have := loopAdding_error h3
        subst this
        simp
      | ok adding => simp

/-- C6 as stated fails: two CNAME records of one name are declared without
`proxied`, and the run stops on the nil dereference in `hash`, not on the
duplicate error. -/
theorem cname_uniqueness_counterexample :
    DuplicateCname [cnameNoProxied, cnameNoProxied] ∧
      ¬ ∃ n, diff [cnameNoProxied, cnameNoProxied] [] = .error (.cnameDuplicated n) := by
  refine ⟨⟨0, 1, cnameNoProxied, cnameNoProxied, by decide, rfl, rfl, rfl, rfl, rfl⟩, ?_⟩
  have h : diff [cnameNoProxied, cnameNoProxied] [] = .error .nilDereference := rfl
  rw [h]
  simp

/-- C6, CNAME uniqueness, amended: the duplicate error is raised only when two
declared records at different positions are CNAME with the same name; when
every non-DEPRECATED declared record has the optional field that `hash`
needs, the diff stops with the duplicate error, and so with no delete-set and
no add-set, exactly when there are two such records; and the error is decided
from the declared list alone, whatever the provider records. -/
theorem cname_uniqueness (df : List DNSRecord) :
    (∀ cf n, diff df cf = .error (.cnameDuplicated n) → DuplicateCname df) ∧
    ((∀ d ∈ df, d.Type_ ≠ "DEPRECATED" → fieldsPresent d) →
      ∀ cf, (∃ n, diff df cf = .error (.cnameDuplicated n)) ↔ DuplicateCname df) ∧
    (∀ cf cf2 n, diff df cf = .error (.cnameDuplicated n) →
      diff df cf2 = .error (.cnameDuplicated n)) := by
  have only : ∀ cf n, diff df cf = .error (.cnameDuplicated n) → DuplicateCname df := by
    intro cf n h
    rcases loopDeclared_duplicate_only ((diff_duplicate_iff df cf n).1 h) with
      ⟨y, _, _, hy⟩ | hdup
    · simp [Set.Has_SetOf] at hy
    · exact hdup
  refine ⟨only, ?_, ?_⟩
  · intro hf cf
    constructor
    · rintro ⟨n, h⟩
      exact only cf n h
    · intro hdup
      obtain ⟨n, hn⟩ := @loopDeclared_duplicate df ⟨SetOf, SetOf, SetOf⟩
        (fun d hd hnd => (hash_some_iff d).2 (hf d hd hnd)) (Or.inr hdup)
      exact ⟨n, (diff_duplicate_iff df cf n).2 hn⟩
  · intro cf cf2 n h
    exact (diff_duplicate_iff df cf2 n).2 ((diff_duplicate_iff df cf n).1 h)

/-- The statement C6 on two declared CNAME records of the name
`a.example.com`, both with `proxied`, against the provider record `r1`. -/
theorem cname_uniqueness_witness :
    (∃ n, diff [cnameB, cnameC] [actualR1] = .error (.cnameDuplicated n)) ↔
      DuplicateCname [cnameB, cnameC] :=
  (cname_uniqueness [cnameB, cnameC]).2.1
    (by
      intro d hd _
      simp only [List.mem_cons, List.mem_singleton, List.not_mem_nil, or_false] at hd
      rcases hd with rfl | rfl <;> simp [fieldsPresent, cnameB, cnameC])
    [actualR1]

/-! ## Zone ownership -/

theorem lookup_zoneIdsOf (zones : List Zone) (acc : List (String × String)) (k : String) :
    ((zoneIdsOf zones acc).lookup k ≠ none) ↔
      k ∈ zones.map (fun z => z.Name) ∨ acc.lookup k ≠ none := by
  induction zones generalizing acc with
  | nil => simp [zoneIdsOf]
  | cons z rest ih =>
    rw [zoneIdsOf, ih, List.lookup_cons]
    by_cases hk : k = z.Name
    · subst hk
      simp
    · have hb : (k == z.Name) = false := by simpa using hk
      simp only [hb, List.map_cons, List.mem_cons, hk, false_or]

theorem validate_ok {zoneIds : List (String × String)} {records : List DNSRecord}
    (h : ∀ r ∈ records, zoneIds.lookup (getZoneName r) ≠ none) :
    validate zoneIds records = .ok () := by
  induction records with
  | nil => rfl
  | cons r rest ih =>
    unfold validate
    cases hl : zoneIds.lookup (getZoneName r) with
    | none => exact absurd hl (h r (List.mem_cons_self _ _))
    | some v => exact ih fun r2 hr2 => h r2 (List.mem_cons_of_mem _ hr2)

theorem validate_error {zoneIds : List (String × String)} {records : List DNSRecord}
    (h : ∃ r ∈ records, zoneIds.lookup (getZoneName r) = none) :
    ∃ r ∈ records, zoneIds.lookup (getZoneName r) = none ∧
      validate zoneIds records = .error (.unmanagedZone (getZoneName r)) := by
  induction records with
  | nil => simp at h
  | cons r rest ih =>
    unfold validate
    cases hl : zoneIds.lookup (getZoneName r) with
    | none => exact ⟨r, List.mem_cons_self _ _, hl, rfl⟩
    | some v =>
      obtain ⟨r2, hr2, hn⟩ := h
      rcases List.mem_cons.1 hr2 with rfl | hr2
      · rw [hl] at hn
        exact absurd hn (by simp)
      · obtain ⟨r3, hr3, hn3, e⟩ := ih ⟨r2, hr2, hn⟩
        exact ⟨r3, List.mem_cons_of_mem _ hr3, hn3, e⟩

theorem walk_ok {zoneIds : List (String × String)} {files : List (List DNSRecord)}
    (dfRecords : List DNSRecord)
    (h : ∀ r ∈ files.flatten, zoneIds.lookup (getZoneName r) ≠ none) :
    walk zoneIds files dfRecords = .ok (dfRecords ++ files.flatten) := by
  induction files generalizing dfRecords with
  | nil => simp [walk]
  | cons f rest ih =>
    have hf : ∀ r ∈ f, zoneIds.lookup (getZoneName r) ≠ none :=
      fun r hr => h r (by simp [hr])
    have hrest : ∀ r ∈ rest.flatten, zoneIds.lookup (getZoneName r) ≠ none :=
      fun r hr => h r (by
        rw [List.flatten_cons, List.mem_append]
        exact Or.inr hr)
    rw [walk, validate_ok hf]
    simp only
    rw [ih (dfRecords ++ f) hrest]
    simp

theorem walk_error {zoneIds : List (String × String)} {files : List (List DNSRecord)}
    (dfRecords : List DNSRecord)
    (h : ∃ r ∈ files.flatten, zoneIds.lookup (getZoneName r) = none) :
    ∃ r ∈ files.flatten, zoneIds.lookup (getZoneName r) = none ∧
      walk zoneIds files dfRecords = .error (.unmanagedZone (getZoneName r)) := by
  induction files generalizing dfRecords with
  | nil => simp at h
  | cons f rest ih =>
    by_cases hf : ∃ r ∈ f, zoneIds.lookup (getZoneName r) = none
    · obtain ⟨r, hr, hn, e⟩ := validate_error hf
      exact ⟨r, by simp [hr], hn, by rw [walk, e]⟩
    · have hf2 : ∀ r ∈ f, zoneIds.lookup (getZoneName r) ≠ none := by
        intro r hr hn
        exact hf ⟨r, hr, hn⟩
      obtain ⟨r, hr, hn⟩ := h
      rw [List.flatten_cons, List.mem_append] at hr
      rcases hr with hr | hr
      · exact absurd hn (hf2 r hr)
      · obtain ⟨r3, hr3, hn3, e⟩ := ih (dfRecords ++ f) ⟨r, hr, hn⟩
        refine ⟨r3, ?_, hn3, ?_⟩
        · rw [List.flatten_cons, List.mem_append]
          exact Or.inr hr3
        · rw [walk, validate_ok hf2]
          exact e

/-- C7, zone ownership: for every provider zone list and every list of
declared records, given file by file, the validation of the walk fails
exactly when some declared record has a `getZoneName` that is not the name of
a listed zone, and the run then stops with no add-set and no delete-set;
when every declared record has a listed zone, the walk returns all the records and
the run is the diff of them. -/
theorem zone_ownership (zones : List Zone) (files : List (List DNSRecord))
    (cf : List DNSRecord) :
    ((∃ z, walk (zoneIdsOf zones []) files [] = .error (.unmanagedZone z)) ↔
      ∃ r ∈ files.flatten, getZoneName r ∉ zones.map (fun z => z.Name)) ∧
    ((∃ r ∈ files.flatten, getZoneName r ∉ zones.map (fun z => z.Name)) →
      ∃ z, reconcile zones files cf = .error (.unmanagedZone z)) ∧
    ((∀ r ∈ files.flatten, getZoneName r ∈ zones.map (fun z => z.Name)) →
      walk (zoneIdsOf zones []) files [] = .ok files.flatten ∧
        reconcile zones files cf = diff files.flatten cf) := by
  have hl : ∀ k, (zoneIdsOf zones []).lookup k ≠ none ↔
      k ∈ zones.map (fun z => z.Name) := by
    intro k
    rw [lookup_zoneIdsOf]
    simp
  have hbad : (∃ r ∈ files.flatten, getZoneName r ∉ zones.map (fun z => z.Name)) →
      ∃ z, walk (zoneIdsOf zones []) files [] = .error (.unmanagedZone z) := by
    rintro ⟨r, hr, hn⟩
    have : (zoneIdsOf zones []).lookup (getZoneName r) = none := by
      by_contra hc
      exact hn ((hl _).1 hc)
    obtain ⟨r2, _, _, e⟩ := @walk_error (zoneIdsOf zones []) files [] ⟨r, hr, this⟩
    exact ⟨_, e⟩
  have hgood : (∀ r ∈ files.flatten, getZoneName r ∈ zones.map (fun z => z.Name)) →
      walk (zoneIdsOf zones []) files [] = .ok files.flatten := by
    intro h
    have := @walk_ok (zoneIdsOf zones []) files []
      (fun r hr => (hl _).2 (h r hr))
    simpa using this
  refine ⟨⟨?_, hbad⟩, ?_, ?_⟩
  · rintro ⟨z, hz⟩
    by_contra hcon
    have hall : ∀ r ∈ files.flatten, getZoneName r ∈ zones.map (fun z => z.Name) := by
      intro r hr
      by_contra hn
      exact hcon ⟨r, hr, hn⟩
    rw [hgood hall] at hz
    simp at hz
  · intro h
    obtain ⟨z, hz⟩ := hbad h
    exact ⟨z, by rw [reconcile, hz]⟩
  · intro h
    exact ⟨hgood h, by rw [reconcile, hgood h]⟩

/-- The statement C7 on the zone list with the one zone `example.com`: the file
holding the declared A record of `www.example.com` passes and the run is the
diff; with a second file holding a record of `www.other.org` the run stops. -/
theorem zone_ownership_witness :
    (walk (zoneIdsOf [zoneExample] []) [[declaredA]] [] = .ok [[declaredA]].flatten ∧
      reconcile [zoneExample] [[declaredA]] [actualR1]
        = diff [[declaredA]].flatten [actualR1]) ∧
    ∃ z, reconcile [zoneExample] [[declaredA], [declaredOther]] [actualR1]
      = .error (.unmanagedZone z) :=
  ⟨(zone_ownership [zoneExample] [[declaredA]] [actualR1]).2.2
      (by
        intro r hr
        simp only [List.flatten_cons, List.flatten_nil, List.append_nil,
          List.mem_singleton] at hr
        subst hr
        decide),
    (zone_ownership [zoneExample] [[declaredA], [declaredOther]] [actualR1]).2.1
      ⟨declaredOther, by simp, by decide⟩⟩

/-! ## `getZoneName` -/

theorem splitDots_dotless {a : List Char} (ha : '.' ∉ a) : splitDots a = [a] := by
  induction a with
  | nil => rfl
  | cons c a ih =>
    have hc : c ≠ '.' := fun e => ha (by simp [e])
    have ha2 : '.' ∉ a := fun h => ha (List.mem_cons_of_mem _ h)
    rw [splitDots, if_neg hc, ih ha2]

theorem splitDots_append_dot {a : List Char} (ha : '.' ∉ a) (cs : List Char) :
    splitDots (a ++ '.' :: cs) = a :: splitDots cs := by
  induction a with
  | nil => simp [splitDots]
  | cons c a ih =>
    have hc : c ≠ '.' := fun e => ha (by simp [e])
    have ha2 : '.' ∉ a := fun h => ha (List.mem_cons_of_mem _ h)
    rw [List.cons_append, splitDots, if_neg hc, ih ha2]

theorem intercalate_go_data (acc s : String) (l : List String) :
    (String.intercalate.go acc s l).data
      = acc.data ++ l.flatMap (fun a => s.data ++ a.data) := by
  induction l generalizing acc with
  | nil => simp [String.intercalate.go]
  | cons a l ih =>
    rw [String.intercalate.go, ih]
    simp [String.data_append, List.append_assoc]

theorem intercalate_dot_data (a : String) (l : List String) :
    (".".intercalate (a :: l)).data = a.data ++ l.flatMap (fun b => '.' :: b.data) := by
  rw [String.intercalate, intercalate_go_data]
  rfl

theorem splitDots_joined (a : String) (l : List String)
    (h : ∀ b ∈ a :: l, '.' ∉ b.data) :
    splitDots (a.data ++ l.flatMap (fun b => '.' :: b.data))
      = a.data :: l.map (fun b => b.data) := by
  induction l generalizing a with
  | nil =>
    simp only [List.flatMap_nil, List.append_nil, List.map_nil]
    exact splitDots_dotless (h a (List.mem_cons_self _ _))
  | cons b l ih =>
    rw [List.flatMap_cons, List.cons_append,
      splitDots_append_dot (h a (List.mem_cons_self _ _)),
      ih b (fun c hc => h c (List.mem_cons_of_mem _ hc))]
    rfl

theorem stringsSplit_intercalate (labels : List String) (hne : labels ≠ [])
    (h : ∀ l ∈ labels, '.' ∉ l.data) :
    stringsSplit (".".intercalate labels) = labels := by
  cases labels with
  | nil => exact absurd rfl hne
  | cons a l =>
    rw [stringsSplit, intercalate_dot_data, splitDots_joined a l h]
    simp [List.map_map, Function.comp_def]

theorem splitDots_spec (cs : List Char) :
    ∃ p ps, splitDots cs = p :: ps ∧ (∀ q ∈ p :: ps, '.' ∉ q) ∧
      p ++ ps.flatMap (fun q => '.' :: q) = cs := by
  induction cs with
  | nil => exact ⟨[], [], rfl, by simp, rfl⟩
  | cons c cs ih =>
    obtain ⟨p, ps, e, hd, hj⟩ := ih
    by_cases hc : c = '.'
    · refine ⟨[], p :: ps, by rw [splitDots, if_pos hc, e], ?_, ?_⟩
      · intro q hq
        rcases List.mem_cons.1 hq with rfl | hq
        · simp
        · exact hd q hq
      · rw [List.flatMap_cons, List.nil_append, List.cons_append, hj, hc]
    · refine ⟨c :: p, ps, by rw [splitDots, if_neg hc, e], ?_, ?_⟩
      · intro q hq
        rcases List.mem_cons.1 hq with rfl | hq
        · intro hm
          rcases List.mem_cons.1 hm with e2 | hm
          · exact hc e2.symm
          · exact hd p (List.mem_cons_self _ _) hm
        · exact hd q (List.mem_cons_of_mem _ hq)
      · rw [List.cons_append, hj]

theorem stringsSplit_spec (s : String) :
    stringsSplit s ≠ [] ∧ (∀ l ∈ stringsSplit s, '.' ∉ l.data) ∧
      s = ".".intercalate (stringsSplit s) := by
  obtain ⟨p, ps, e, hd, hj⟩ := splitDots_spec s.data
  have hs : stringsSplit s = String.mk p :: ps.map String.mk := by
    rw [stringsSplit, e]
    rfl
  refine ⟨by rw [hs]; simp, ?_, ?_⟩
  · intro l hl
    rw [hs, List.mem_cons, List.mem_map] at hl
    rcases hl with rfl | ⟨q, hq, rfl⟩
    · exact hd p (List.mem_cons_self _ _)
    · exact hd q (List.mem_cons_of_mem _ hq)
  · apply String.ext
    rw [hs, intercalate_dot_data, List.flatMap_map]
    exact hj.symm

/-- C8, zoneOf: when the name of a record is the dot-join of the nonempty
list `labels` of dot-free labels, `getZoneName` returns the last two labels
joined by a dot if there are at least two, and the whole name otherwise;
every name is such a join; the result depends on the name only; and
`a.b.example.com` gives `example.com`. -/
theorem zoneOf_last_two_labels (r : DNSRecord) :
    (∀ labels : List String, labels ≠ [] → (∀ l ∈ labels, '.' ∉ l.data) →
      r.Name = ".".intercalate labels →
      getZoneName r =
        if labels.length < 2 then r.Name
        else ".".intercalate (labels.drop (labels.length - 2))) ∧
    (∃ labels : List String, labels ≠ [] ∧ (∀ l ∈ labels, '.' ∉ l.data) ∧
      r.Name = ".".intercalate labels) ∧
    (∀ r2 : DNSRecord, r2.Name = r.Name → getZoneName r2 = getZoneName r) ∧
    (r.Name = "a.b.example.com" → getZoneName r = "example.com") := by
  refine ⟨?_, ?_, ?_, ?_⟩
  · intro labels hne hd hn
    rw [getZoneName, hn, stringsSplit_intercalate labels hne hd]
    rfl
  · exact ⟨stringsSplit r.Name, stringsSplit_spec r.Name⟩
  · intro r2 h
    rw [getZoneName, getZoneName, h]
  · intro h
    rw [getZoneName, h]
    decide

/-- The statement C8 on the declared record `www.example.com` with the
labels `www`, `example`, `com`, and on a record of the one-label name
`localhost`. -/
theorem zoneOf_last_two_labels_witness :
    getZoneName declaredA = "example.com" ∧
      getZoneName ⟨"", "TXT", "localhost", "", 0, none, none⟩ = "localhost" :=
  ⟨(zoneOf_last_two_labels declaredA).1 ["www", "example", "com"] (by simp)
      (by decide) rfl,
    (zoneOf_last_two_labels ⟨"", "TXT", "localhost", "", 0, none, none⟩).1 ["localhost"]
      (by simp) (by decide) rfl⟩

/-! ## `nt` and `hash` -/

theorem append_left_cancel_string {a b c : String} (h : a ++ b = a ++ c) : b = c := by
  apply String.ext
  have := congrArg String.data h
  rw [String.data_append, String.data_append] at this
  exact List.append_cancel_left this

/-- C9 as stated fails: the AAAA record and the A record of the name
`www.example.com` have different IdentityKeys. -/
theorem identityKey_counterexample :
    declaredAAAA.Name = declaredA.Name ∧ declaredAAAA.Type_ = "AAAA" ∧
      declaredA.Type_ = "A" ∧ nt declaredAAAA ≠ nt declaredA := by
  decide

/-- C9, IdentityKey type-class, amended: for two records of one name, when
both types are among A, CNAME and DEPRECATED the IdentityKeys `nt` are one
and the same `name-X`; a record of type AAAA has the IdentityKey `name-AAAA`,
different from that of a record of type A, CNAME or DEPRECATED; and when the
types are different and both outside A, CNAME and DEPRECATED the
IdentityKeys are different. -/
theorem identityKey_type_class (r1 r2 : DNSRecord) (hn : r1.Name = r2.Name) :
    ((r1.Type_ = "A" ∨ r1.Type_ = "CNAME" ∨ r1.Type_ = "DEPRECATED") →
      (r2.Type_ = "A" ∨ r2.Type_ = "CNAME" ∨ r2.Type_ = "DEPRECATED") →
      nt r1 = nt r2 ∧ nt r1 = r1.Name ++ "-X") ∧
    (r1.Type_ = "AAAA" →
      (r2.Type_ = "A" ∨ r2.Type_ = "CNAME" ∨ r2.Type_ = "DEPRECATED") →
      nt r1 = r1.Name ++ "-AAAA" ∧ nt r1 ≠ nt r2) ∧
    (¬ (r1.Type_ = "A" ∨ r1.Type_ = "CNAME" ∨ r1.Type_ = "DEPRECATED") →
      ¬ (r2.Type_ = "A" ∨ r2.Type_ = "CNAME" ∨ r2.Type_ = "DEPRECATED") →
      r1.Type_ ≠ r2.Type_ → nt r1 ≠ nt r2) := by
  refine ⟨?_, ?_, ?_⟩
  · intro h1 h2
    simp only [nt, h1, h2, if_true, hn, and_self]
  · intro h1 h2
    have h1n : ¬ (r1.Type_ = "A" ∨ r1.Type_ = "CNAME" ∨ r1.Type_ = "DEPRECATED") := by
      rw [h1]; decide
    have e1 : nt r1 = r1.Name ++ "-AAAA" := by
      rw [nt, if_neg h1n, h1, String.append_assoc]
      rfl
    refine ⟨e1, ?_⟩
    rw [e1]
    simp only [nt, h2, if_true, hn]
    intro h
    exact absurd (append_left_cancel_string h) (by decide)
  · intro h1 h2 hne
    simp only [nt, h1, h2, if_false, hn]
    intro h
    rw [String.append_assoc, String.append_assoc] at h
    exact hne (append_left_cancel_string (append_left_cancel_string h))

/-- The statement C9 on the A record and the proxied tombstone of the name
`www.example.com`: one IdentityKey. -/
theorem identityKey_type_class_witness :
    nt declaredA = nt tombstoneProxied ∧ nt declaredA = declaredA.Name ++ "-X" :=
  (identityKey_type_class declaredA tombstoneProxied rfl).1
    (Or.inl rfl) (Or.inr (Or.inr rfl))

/-- C10 as stated fails: the tombstone with a `proxied` field is hashed with
the type field `X`, and its hash is not the digest taken with the literal
type `DEPRECATED`. -/
theorem contentHash_counterexample :
    fieldsPresent tombstoneProxied ∧
      hash tombstoneProxied
        ≠ some (digestOfFields (claimedHashType tombstoneProxied) tombstoneProxied) :=
  ⟨by simp [fieldsPresent, tombstoneProxied], hash_tombstoneProxied_ne⟩

/-- C10, ContentHash definition, amended: for every record whose needed
optional field is present, `hash` is the hex MD5 digest of
`(zone, T, ttl, name, content, extra)` joined by `-`, with zone the
`getZoneName`, T equal to `X` for A, CNAME and DEPRECATED and to the literal
type otherwise, extra the priority for MX, proxied for A, CNAME and
DEPRECATED, absent otherwise; the provider id does not enter the hash. -/
theorem contentHash_definition (r : DNSRecord) (h : fieldsPresent r) :
    hash r = some (digestOfFields (hashType r) r) ∧
      ∀ id : String, hash { r with ID := id } = hash r := by
  constructor
  · unfold fieldsPresent at h
    unfold hash digestOfFields hashType hashExtra
    by_cases h1 : r.Type_ = "MX"
    · have h2 : ¬ (r.Type_ = "A" ∨ r.Type_ = "CNAME" ∨ r.Type_ = "DEPRECATED") := by
        rw [h1]; decide
      cases hp : r.Priority with
      | none => exact absurd hp (h.1 h1)
      | some p =>
        simp only [h1, h2, if_true, if_false, hp]
        rfl
    · by_cases h2 : r.Type_ = "A" ∨ r.Type_ = "CNAME" ∨ r.Type_ = "DEPRECATED"
      · cases hp : r.Proxied with
        | none => exact absurd hp (h.2 h2)
        | some b =>
          simp only [h1, h2, if_true, if_false, hp]
          rfl
      · simp only [h1, h2, if_false]
        rfl
  · intro id
    rfl

/-- The statement C10 on the declared MX record with priority 10. -/
theorem contentHash_definition_witness :
    hash declaredMX = some (digestOfFields (hashType declaredMX) declaredMX) ∧
      ∀ id : String, hash { declaredMX with ID := id } = hash declaredMX :=
  contentHash_definition declaredMX (by simp [fieldsPresent, declaredMX])

end Cafe
